import Mathlib

/-!
Verification of the Deep CFR poker trainer (deep_cfr.py, game_env.py).

The Python source is shallowly embedded: floats become exact rationals
(the claims under scrutiny concern formula structure, masking, eviction
and aliasing, none of which depend on floating-point rounding error),
numpy arrays of length 5 become `Fin 5 → ℚ`, Python exceptions become
`Except String`/`Option` results, and the mutable numpy arrays stored in
`cumulative_regrets` (shared by reference with `advantage_memory`) are
modelled by an explicit heap of vectors addressed by natural numbers, so
that the aliasing created by `deque.append` of a live array is visible.
The third-party `deuces` evaluator (post-flop only) is an opaque
collaborator and enters as a function parameter; every claim below only
exercises the pre-flop path where it is not consulted.
-/

namespace DeepCFRSpec

/-- A `deuces` card as far as the code observes it: `Card.get_rank_int`
(0–12, deuce to ace) and suit identity (`get_suit_int` equality; 0–3 for
clubs, diamonds, hearts, spades). From `game_env.py` lines 117–124. -/
structure PCard where
  rank : ℕ
  suit : ℕ
deriving DecidableEq, Repr, Inhabited

/-- Embeds `HandProcessor.convert_card` (game_env.py lines 111–127): 1-based id to
card. `idx == 0` returns `None`; otherwise `rank_idx = (idx-1)//4`,
`suit_idx = (idx-1)%4` (Python floor division and nonnegative mod, which
for the positive divisor 4 agree with `Int.ediv`/`Int.emod`), then
`ranks[rank_idx]` on a 13-element Python list: in range builds the card,
a negative index in `[-13,-1]` silently wraps to `13 + rank_idx`
(Python negative indexing), and any other index raises `IndexError`,
which the function catches, logs, and converts to `None`. -/
def convertCard (idx : ℤ) : Option PCard :=
  if idx = 0 then none
  else
    let rankIdx : ℤ := (idx - 1) / 4
    let suitIdx : ℤ := (idx - 1) % 4
    if 0 ≤ rankIdx ∧ rankIdx < 13 then some ⟨rankIdx.toNat, suitIdx.toNat⟩
    else if -13 ≤ rankIdx ∧ rankIdx < 0 then some ⟨(13 + rankIdx).toNat, suitIdx.toNat⟩
    else none

/-- Embeds `HandProcessor._estimate_preflop_strength` (game_env.py lines 149–161).
The argument list may contain `None` entries (from `convert_card` failures);
`Card.get_rank_int(None)` raises, as does `hole[0]`/`hole[1]` on a list
shorter than 2 — both surface as an exception that `get_strength` catches.
`sorted` is ascending, so `ranks[1] - ranks[0]` is nonnegative. -/
def estimatePreflop (hole : List (Option PCard)) : Except String ℚ :=
  if hole.any (fun c => c.isNone) then .error "TypeError"
  else
    let cards := hole.reduceOption
    if cards.length < 2 then .error "IndexError"
    else
      let ranks := List.insertionSort (· ≤ ·) (cards.map PCard.rank)
      let r0 := ranks.getD 0 0
      let r1 := ranks.getD 1 0
      let suited := (cards.getD 0 default).suit = (cards.getD 1 default).suit
      if r0 = r1 then .ok (9/10)
      else if r1 - r0 = 1 then .ok (if suited then 7/10 else 6/10)
      else if suited then .ok (1/2)
      else .ok (2/5)

/-- Embeds `HandProcessor.get_strength` (game_env.py lines 129–147). Indices `≤ 0`
are filtered before conversion; the converted lists keep `None` entries
(their length still counts toward the `len(board) < 3` test). The deuces
post-flop evaluation `evaluator.evaluate(board, hole)` and
`get_five_card_rank_percentage` are the opaque parameters `ev` and `pct`.
Every exception inside the body is caught and becomes strength `0.0`. -/
def getStrength (ev : List (Option PCard) → List (Option PCard) → Except String ℚ)
    (pct : ℚ → ℚ) (holeIndices boardIndices : List ℤ) : ℚ :=
  let hole := (holeIndices.filter (fun i => 0 < i)).map convertCard
  let board := (boardIndices.filter (fun i => 0 < i)).map convertCard
  if board.length < 3 then
    match estimatePreflop hole with
    | .ok s => s
    | .error _ => 0
  else
    match ev board hole with
    | .ok score => 1 - pct score
    | .error _ => 0

/-- Models `round(x, 2)` on the encoder output as
`⌊x * 100 + 1/2⌋ / 100` (round half up). Python rounds half to even; the
two differ only at exact multiples of 0.005, which no claim exercises. -/
def round2 (q : ℚ) : ℚ := (⌊q * 100 + 1/2⌋ : ℤ) / 100

/-- Models `round(x, 1)` (same remark as `round2`). -/
def round1 (q : ℚ) : ℚ := (⌊q * 10 + 1/2⌋ : ℤ) / 10

/-- Embeds `DeepCFR.encode_state` (deep_cfr.py lines 53–76). Hole indices are the
1-based positions of entries equal to 1 among the first 52 observation
slots; board indices come from the environment and are a parameter. Stack
reads `observation[52]`/`observation[53]` raise `IndexError` on a shorter
observation, which the `except` clause logs and re-raises; nothing else in
the body can raise (`get_strength` is total). -/
def encodeState (ev : List (Option PCard) → List (Option PCard) → Except String ℚ)
    (pct : ℚ → ℚ) (obs : List ℚ) (boardIndices : List ℤ) : Except String (ℚ × ℚ) :=
  let holeIndices := ((List.range 52).filter (fun i => obs.getD i 0 = 1)).map
    (fun (i : ℕ) => (i : ℤ) + 1)
  let strength := getStrength ev pct holeIndices boardIndices
  match obs.get? 52, obs.get? 53 with
  | some p0, some p1 => .ok (round2 strength, round1 (100 - (p0 + p1)))
  | _, _ => .error "IndexError"

/-- Embeds `DeepCFR.get_action_probs` (deep_cfr.py lines 86–105). The network
output `probs = softmax(net(state))` enters as the parameter `probs`
(softmax of any logits is a nonnegative vector; floating-point softmax
can underflow to zeros, which is why the code guards `sum_probs == 0`).
If the legal mask is all zeros the function logs a warning and returns
the mask itself; otherwise it masks, and renormalizes, falling back to
`legal_mask / legal_mask.sum()` when the masked sum is zero. -/
def getActionProbs (probs legalMask : Fin 5 → ℚ) : Fin 5 → ℚ :=
  if ∀ i, legalMask i = 0 then legalMask
  else
    let legalProbs := fun i => probs i * legalMask i
    let sumProbs := ∑ i, legalProbs i
    if sumProbs = 0 then fun i => legalMask i / ∑ j, legalMask j
    else fun i => legalProbs i / sumProbs

/-- One `DecisionRecord` appended to `history` in `_cfr_iteration`
(deep_cfr.py line 148): encoded state (already rounded by the encoder),
strategy distribution, chosen action, and the two reach probabilities at
decision time. -/
structure Decision where
  state : ℚ × ℚ
  strategy : Fin 5 → ℚ
  action : Fin 5
  rpSelf : ℚ
  rpOpp : ℚ

/-- Embeds `state_key = tuple(state_tensor.cpu().numpy().round(2))`
(deep_cfr.py line 179). -/
def stateKey (d : Decision) : ℚ × ℚ := (round2 d.state.1, round2 d.state.2)

/-- Embeds `cf_value = player_reward * (rp_opp / (rp_self + 1e-8))`
(deep_cfr.py line 180). -/
def cfValue (reward : ℚ) (d : Decision) : ℚ :=
  reward * (d.rpOpp / (d.rpSelf + 1 / 100000000))

/-- The `immediate_regret` vector of deep_cfr.py lines 189–193:
`cf_value * (1 - strategy[action])` at the chosen action and
`-cf_value * strategy[a]` elsewhere. -/
def immediateRegret (reward : ℚ) (d : Decision) : Fin 5 → ℚ :=
  fun a =>
    if a = d.action then cfValue reward d * (1 - d.strategy a)
    else -cfValue reward d * d.strategy a

/-- Embeds `collections.deque(maxlen=cap).append`: appending to a deque already
holding `cap` items discards from the opposite (left/oldest) end. The
general `drop` keeps the definition total on over-long lists; on any list
within capacity it drops exactly the excess. -/
def dequePush (cap : ℕ) (xs : List α) (x : α) : List α :=
  if xs.length < cap then xs ++ [x]
  else (xs.drop (xs.length + 1 - cap)) ++ [x]

/-- The mutable state touched by `_update_regrets`. numpy arrays live in
`heap`; `cumulative_regrets` (a `defaultdict(lambda: np.zeros(5))`) maps
state keys to heap addresses, never rebinding a key once allocated
(`+=` mutates in place); `advantage_memory` (a `deque(maxlen=1000000)`)
stores the encoded state together with the heap address of the appended
array, because `deque.append` stores a reference, not a copy.
`cumulative_strategy` values are private to their key, so they are
modelled by value. -/
structure RegretState where
  heap : List (Fin 5 → ℚ)
  table : ℚ × ℚ → Option ℕ
  buffer : List ((ℚ × ℚ) × ℕ)
  stratCounts : ℚ × ℚ → Fin 5 → ℚ
  stratVisits : ℚ × ℚ → ℕ

/-- The fresh trainer state of `DeepCFR.__init__` (deep_cfr.py lines
44–46): empty heap, no keys bound, empty replay buffer, zero strategy
accumulators. -/
def initialRegretState : RegretState :=
  { heap := [], table := fun _ => none, buffer := [],
    stratCounts := fun _ _ => 0, stratVisits := fun _ => 0 }

/-- First access `cumulative_regrets[state_key]` on a `defaultdict`:
return the bound address, or allocate a fresh zero vector. -/
def getOrAlloc (st : RegretState) (key : ℚ × ℚ) : RegretState × ℕ :=
  match st.table key with
  | some a => (st, a)
  | none =>
    ({ st with
        heap := st.heap ++ [fun _ => 0],
        table := fun k => if k = key then some st.heap.length else st.table k },
      st.heap.length)

/-- The body of the `for` loop of `_update_regrets` (deep_cfr.py lines
177–204) for one decision: compute `immediate_regret`, execute
`cumulative_regrets[state_key] += immediate_regret` (an in-place update
of the heap cell), append `(state, ref)` to the bounded deque, and update
the cumulative strategy. -/
def stepDecision (reward : ℚ) (st : RegretState) (d : Decision) : RegretState :=
  let key := stateKey d
  let r := getOrAlloc st key
  let st1 := r.1
  let addr := r.2
  let newVec := fun a => (st1.heap.getD addr (fun _ => 0)) a + immediateRegret reward d a
  { st1 with
    heap := st1.heap.set addr newVec,
    buffer := dequePush 1000000 st1.buffer (d.state, addr),
    stratCounts := fun k =>
      if k = key then fun a => st1.stratCounts k a + d.strategy a * d.rpSelf
      else st1.stratCounts k,
    stratVisits := fun k =>
      if k = key then st1.stratVisits k + 1 else st1.stratVisits k }

/-- Embeds `DeepCFR._update_regrets(history, final_rewards)` (deep_cfr.py lines
173–204): `player_reward = final_rewards.get('player_0', 0)` followed by
the decision loop. -/
def updateRegrets (finalRewards : List (String × ℚ)) (history : List Decision)
    (st : RegretState) : RegretState :=
  let playerReward := ((finalRewards.lookup "player_0").getD 0)
  history.foldl (stepDecision playerReward) st

/-- The cumulative regret vector currently associated with a key: the
content of its heap cell, or the defaultdict default (zeros) when the key
was never touched. -/
def derefTable (st : RegretState) (k : ℚ × ℚ) : Fin 5 → ℚ :=
  match st.table k with
  | some a => st.heap.getD a (fun _ => 0)
  | none => fun _ => 0

/-- What a consumer of `advantage_memory` reads at buffer position `i`:
the entry's encoded state and the CURRENT content of the referenced heap
cell (numpy arrays are shared by reference). -/
def bufferValue (st : RegretState) (i : ℕ) : (ℚ × ℚ) × (Fin 5 → ℚ) :=
  let e := st.buffer.getD i ((0, 0), 0)
  (e.1, st.heap.getD e.2 (fun _ => 0))

/-- The total immediate regret that one `_update_regrets` call adds to the
cumulative entry of key `k`: the sum of the immediate regrets of the
decisions bucketed at `k`, in trajectory order. -/
def regretDelta (reward : ℚ) (history : List Decision) (k : ℚ × ℚ) : Fin 5 → ℚ :=
  history.foldl
    (fun acc d => if stateKey d = k then fun a => acc a + immediateRegret reward d a else acc)
    (fun _ => 0)

/-- Heap sanity: every bound address is in range, and no two keys share a
heap cell. Holds for `initialRegretState` and is preserved by the update
loop (allocation is only ever of a fresh address). -/
def WFState (st : RegretState) : Prop :=
  (∀ k a, st.table k = some a → a < st.heap.length) ∧
  (∀ k k' a, st.table k = some a → st.table k' = some a → k = k')

/-- Training parameters the `train` loop mutates (deep_cfr.py lines 38–41,
269–283): the iteration counter and exploration epsilon. -/
structure TrainerState where
  iterations : ℕ
  epsilon : ℚ

/-- One pass of the `train` loop body, as far as these two fields are
concerned: `self.iterations += 1`, run `_cfr_iteration` (which never
touches `epsilon` or `iterations`), then
`self.epsilon = max(self.min_epsilon, self.epsilon * self.epsilon_decay)`
with `min_epsilon = 0.01` and `epsilon_decay = 0.995`. -/
def trainStep (st : TrainerState) : TrainerState :=
  { iterations := st.iterations + 1,
    epsilon := max (1/100) (st.epsilon * (199/200)) }

/-- Initial `__init__` values: `iterations = 0`, `epsilon = 0.15`. -/
def initialTrainerState : TrainerState := { iterations := 0, epsilon := 3/20 }

/-- The trainer state after `n` completed iterations of `train`. -/
def trainAfter (n : ℕ) : TrainerState := trainStep^[n] initialTrainerState

/-- A concrete decision of the training player: encoded state (0.9, 2.0),
a half/half strategy over actions 0 and 1, chosen action 0, and both
reach probabilities 1 — two occurrences of it in one trajectory bucket to
the same state key. -/
def aliasDecision : Decision :=
  { state := (9/10, 2),
    strategy := fun a => if a = 0 then 1/2 else if a = 1 then 1/2 else 0,
    action := 0, rpSelf := 1, rpOpp := 1 }

/-- The rank index a valid card id maps to (`(idx-1)//4`). -/
def cardRank (idx : ℤ) : ℕ := ((idx - 1) / 4).toNat

/-- The suit index a valid card id maps to (`(idx-1)%4`). -/
def cardSuit (idx : ℤ) : ℕ := ((idx - 1) % 4).toNat

lemma convertCard_valid (idx : ℤ) (h1 : 1 ≤ idx) (h2 : idx ≤ 52) :
    convertCard idx = some ⟨cardRank idx, cardSuit idx⟩ := by
  have hne : idx ≠ 0 := by omega
  have hrange : 0 ≤ (idx - 1) / 4 ∧ (idx - 1) / 4 < 13 := by omega
  simp [convertCard, hne, hrange, cardRank, cardSuit]

lemma estimatePreflop_two (c1 c2 : PCard) :
    estimatePreflop [some c1, some c2] =
      .ok (if c1.rank = c2.rank then 9/10
        else if c1.rank + 1 = c2.rank ∨ c2.rank + 1 = c1.rank then
          (if c1.suit = c2.suit then 7/10 else 6/10)
        else if c1.suit = c2.suit then 1/2
        else 2/5) := by
  unfold estimatePreflop
  simp only [List.any_cons, List.any_nil, Option.isNone_some, Bool.or_self,
    Bool.false_eq_true, if_false,
    List.reduceOption_cons_of_some, List.reduceOption_nil, List.length_cons,
    List.length_nil, List.map_cons, List.map_nil]
  rcases le_or_lt c1.rank c2.rank with hle | hlt
  · rw [show List.insertionSort (fun x1 x2 => x1 ≤ x2) [c1.rank, c2.rank]
        = [c1.rank, c2.rank] from by simp [List.insertionSort, List.orderedInsert, hle]]
    simp only [List.getD_cons_zero, List.getD_cons_succ]
    norm_num
    split_ifs <;> first | rfl | omega
  · rw [show List.insertionSort (fun x1 x2 => x1 ≤ x2) [c1.rank, c2.rank]
        = [c2.rank, c1.rank] from by
          simp [List.insertionSort, List.orderedInsert, not_le.mpr hlt]]
    simp only [List.getD_cons_zero, List.getD_cons_succ]
    norm_num
    split_ifs <;> first | rfl | omega

/-- C2: for every pair of valid hole card ids with fewer than 3 board
cards, the hand-strength evaluator returns exactly 9/10 for a pair (equal
ranks), 7/10 for a suited connector (adjacent ranks, same suit), 6/10 for
an unsuited connector, 1/2 for a suited non-connector, and 2/5 otherwise
— in particular a pair pre-flop scores 0.9 and an unsuited non-connector
0.4. -/
theorem preflop_strength_cases
    (ev : List (Option PCard) → List (Option PCard) → Except String ℚ) (pct : ℚ → ℚ)
    (i1 i2 : ℤ) (board : List ℤ)
    (h1 : 1 ≤ i1) (h1' : i1 ≤ 52) (h2 : 1 ≤ i2) (h2' : i2 ≤ 52)
    (hb : (board.filter (fun i => 0 < i)).length < 3) :
    getStrength ev pct [i1, i2] board =
      if cardRank i1 = cardRank i2 then 9/10
      else if cardRank i1 + 1 = cardRank i2 ∨ cardRank i2 + 1 = cardRank i1 then
        (if cardSuit i1 = cardSuit i2 then 7/10 else 6/10)
      else if cardSuit i1 = cardSuit i2 then 1/2
      else 2/5 := by
  have hp1 : (0 : ℤ) < i1 := by omega
  have hp2 : (0 : ℤ) < i2 := by omega
  unfold getStrength
  rw [show List.filter (fun i => decide (0 < i)) [i1, i2] = [i1, i2] from by
    simp [hp1, hp2]]
  simp only [List.map_cons, List.map_nil, List.length_map,
    convertCard_valid i1 h1 h1', convertCard_valid i2 h2 h2']
  rw [if_pos hb, estimatePreflop_two]

/-- Witness for `preflop_strength_cases`: hole ids 1 and 2 (deuce of
clubs, deuce of diamonds) form a pair on an empty board and score 9/10. -/
theorem preflop_strength_cases_witness :
    getStrength (fun _ _ => .error "") (fun q => q) [1, 2] [] =
      if cardRank 1 = cardRank 2 then 9/10
      else if cardRank 1 + 1 = cardRank 2 ∨ cardRank 2 + 1 = cardRank 1 then
        (if cardSuit 1 = cardSuit 2 then 7/10 else 6/10)
      else if cardSuit 1 = cardSuit 2 then 1/2
      else 2/5 :=
  preflop_strength_cases _ _ 1 2 [] (by norm_num) (by norm_num) (by norm_num)
    (by norm_num) (by simp)

lemma getActionProbs_eq (probs legalMask : Fin 5 → ℚ) :
    getActionProbs probs legalMask =
      if ∀ i, legalMask i = 0 then legalMask
      else if (∑ i, probs i * legalMask i) = 0 then
        fun i => legalMask i / ∑ j, legalMask j
      else fun i => probs i * legalMask i / ∑ j, probs j * legalMask j := rfl

lemma legalMask_sum_pos (legalMask : Fin 5 → ℚ)
    (hm : ∀ i, legalMask i = 0 ∨ legalMask i = 1) (j : Fin 5) (hj : legalMask j = 1) :
    0 < ∑ i, legalMask i := by
  have hle : (1 : ℚ) ≤ ∑ i, legalMask i := by
    calc (1 : ℚ) = legalMask j := hj.symm
    _ ≤ ∑ i, legalMask i :=
      Finset.single_le_sum (fun i _ => by rcases hm i with h | h <;> simp [h])
        (Finset.mem_univ j)
  linarith

/-- C3: for every network output (softmax is a nonnegative vector) and
every 0/1 legal mask with at least one legal action, `get_action_probs`
returns a vector that sums to exactly 1 and gives probability 0 to every
illegal action. -/
theorem action_probs_distribution (probs legalMask : Fin 5 → ℚ)
    (_hp : ∀ i, 0 ≤ probs i) (hm : ∀ i, legalMask i = 0 ∨ legalMask i = 1)
    (hl : ∃ i, legalMask i = 1) :
    (∑ i, getActionProbs probs legalMask i) = 1 ∧
    ∀ i, legalMask i = 0 → getActionProbs probs legalMask i = 0 := by
  obtain ⟨j, hj⟩ := hl
  have hnz : ¬ ∀ i, legalMask i = 0 := fun h => by simp [h j] at hj
  rw [getActionProbs_eq, if_neg hnz]
  by_cases h0 : (∑ i, probs i * legalMask i) = 0
  · rw [if_pos h0]
    have hM := legalMask_sum_pos legalMask hm j hj
    refine ⟨?_, fun i hi => by simp [hi]⟩
    rw [← Finset.sum_div]
    field_simp
  · rw [if_neg h0]
    refine ⟨?_, fun i hi => by simp [hi]⟩
    rw [← Finset.sum_div]
    field_simp

/-- Witness for `action_probs_distribution`: uniform network output with
only action 0 legal yields a distribution summing to 1 that puts 0 on the
illegal actions. -/
theorem action_probs_distribution_witness :
    (∑ i, getActionProbs (fun _ => (1 : ℚ)/5) (fun i => if i = 0 then 1 else 0) i) = 1 ∧
    ∀ i, (fun i : Fin 5 => if i = 0 then (1 : ℚ) else 0) i = 0 →
      getActionProbs (fun _ => (1 : ℚ)/5) (fun i => if i = 0 then 1 else 0) i = 0 :=
  action_probs_distribution _ _ (fun i => by norm_num)
    (fun i => by by_cases h : i = 0 <;> simp [h]) ⟨0, by norm_num⟩

/-- C6 (amended): when the masked probability sum is zero, the provider
never divides by zero: with at least one legal action it falls back to the
uniform distribution over legal actions (`legal_mask / legal_mask.sum()`,
summing to 1); with the all-zero mask, however, it returns the zero mask
itself (deep_cfr.py lines 92–94), not a distribution. -/
theorem masked_sum_zero_fallback (probs legalMask : Fin 5 → ℚ)
    (hm : ∀ i, legalMask i = 0 ∨ legalMask i = 1)
    (hs : (∑ i, probs i * legalMask i) = 0) :
    ((∀ i, legalMask i = 0) → getActionProbs probs legalMask = legalMask) ∧
    ((∃ i, legalMask i = 1) →
      (getActionProbs probs legalMask = fun i => legalMask i / ∑ j, legalMask j) ∧
      (∑ i, getActionProbs probs legalMask i) = 1) := by
  constructor
  · intro hz
    rw [getActionProbs_eq, if_pos hz]
  · rintro ⟨j, hj⟩
    have hnz : ¬ ∀ i, legalMask i = 0 := fun h => by simp [h j] at hj
    rw [getActionProbs_eq, if_neg hnz, if_pos hs]
    have hM := legalMask_sum_pos legalMask hm j hj
    refine ⟨rfl, ?_⟩
    rw [← Finset.sum_div]
    field_simp

/-- Witness for `masked_sum_zero_fallback`: only action 1 is legal but the
network puts all mass on action 0, so the masked sum is zero and the
uniform fallback fires. -/
theorem masked_sum_zero_fallback_witness :
    ((∀ i, (fun i : Fin 5 => if i = 1 then (1 : ℚ) else 0) i = 0) →
      getActionProbs (fun i => if i = 0 then 1 else 0) (fun i => if i = 1 then 1 else 0)
        = fun i => if i = 1 then 1 else 0) ∧
    ((∃ i, (fun i : Fin 5 => if i = 1 then (1 : ℚ) else 0) i = 1) →
      (getActionProbs (fun i => if i = 0 then 1 else 0) (fun i => if i = 1 then 1 else 0)
        = fun i => (if i = 1 then (1 : ℚ) else 0) / ∑ j : Fin 5, (if j = 1 then (1 : ℚ) else 0)) ∧
      (∑ i, getActionProbs (fun i => if i = 0 then (1 : ℚ) else 0)
        (fun i => if i = 1 then 1 else 0) i) = 1) :=
  masked_sum_zero_fallback _ _ (fun i => by by_cases h : i = 1 <;> simp [h])
    (by simp [Finset.sum_ite_eq])

/-- Counterexample to C6 as stated: on the all-zero legal mask the
provider does not fall back to a uniform distribution over legal actions
— it returns the zero vector, whose entries sum to 0, not 1. -/
theorem zero_mask_not_distribution :
    (getActionProbs (fun _ => (1 : ℚ)/5) (fun _ => 0) = fun _ => 0) ∧
    (∑ i, getActionProbs (fun _ => (1 : ℚ)/5) (fun _ => 0) i) ≠ 1 := by
  have h : getActionProbs (fun _ => (1 : ℚ)/5) (fun _ => 0) = fun _ => 0 := by
    rw [getActionProbs_eq, if_pos (fun i => rfl)]
  refine ⟨h, ?_⟩
  rw [h]
  norm_num

lemma convertCard_eq (idx : ℤ) :
    convertCard idx =
      if idx = 0 then none
      else if 0 ≤ (idx - 1) / 4 ∧ (idx - 1) / 4 < 13 then
        some ⟨((idx - 1) / 4).toNat, ((idx - 1) % 4).toNat⟩
      else if -13 ≤ (idx - 1) / 4 ∧ (idx - 1) / 4 < 0 then
        some ⟨(13 + (idx - 1) / 4).toNat, ((idx - 1) % 4).toNat⟩
      else none := rfl

lemma encodeState_eq
    (ev : List (Option PCard) → List (Option PCard) → Except String ℚ) (pct : ℚ → ℚ)
    (obs : List ℚ) (board : List ℤ) :
    encodeState ev pct obs board =
      match obs.get? 52, obs.get? 53 with
      | some p0, some p1 =>
        .ok (round2 (getStrength ev pct
            (((List.range 52).filter (fun i => obs.getD i 0 = 1)).map
              (fun (i : ℕ) => (i : ℤ) + 1)) board),
          round1 (100 - (p0 + p1)))
      | _, _ => .error "IndexError" := rfl

lemma getStrength_nil_preflop
    (ev : List (Option PCard) → List (Option PCard) → Except String ℚ) (pct : ℚ → ℚ)
    (board : List ℤ) (hb : (board.filter (fun i => 0 < i)).length < 3) :
    getStrength ev pct [] board = 0 := by
  unfold getStrength
  simp only [List.filter_nil, List.map_nil, List.length_map]
  rw [if_pos hb]
  rfl

/-- C4 (amended): observations shorter than 54 entries make `encode_state`
raise (the stack reads `observation[52]`/`observation[53]` hit an
`IndexError`, which the handler logs and re-raises); but an observation of
the right length whose card mask contains no hole cards is NOT rejected:
the strength computation fails inside `get_strength`, is swallowed there,
and the state is silently encoded with hand strength 0. -/
theorem encode_state_malformed
    (ev : List (Option PCard) → List (Option PCard) → Except String ℚ) (pct : ℚ → ℚ)
    (obs : List ℚ) (board : List ℤ) :
    (obs.length < 54 → encodeState ev pct obs board = .error "IndexError") ∧
    (obs.length = 54 → (∀ i, i < 52 → obs.getD i 0 ≠ 1) →
      (board.filter (fun i => 0 < i)).length < 3 →
      encodeState ev pct obs board =
        .ok (0, round1 (100 - (obs.getD 52 0 + obs.getD 53 0)))) := by
  constructor
  · intro hlen
    rw [encodeState_eq]
    have h53 : obs.get? 53 = none := List.get?_eq_none.mpr (by omega)
    rcases h52 : obs.get? 52 with _ | v <;> rw [h53] <;> rfl
  · intro hlen hmask hb
    rw [encodeState_eq]
    have hfilter : (List.range 52).filter (fun i => decide (obs.getD i 0 = 1)) = [] := by
      rw [List.filter_eq_nil]
      intro a ha
      simp only [decide_eq_true_eq]
      exact hmask a (List.mem_range.mp ha)
    have h52 : obs.get? 52 = some (obs.getD 52 0) := by
      rw [List.get?_eq_get (by omega), List.getD_eq_get obs 0 (by omega)]
    have h53 : obs.get? 53 = some (obs.getD 53 0) := by
      rw [List.get?_eq_get (by omega), List.getD_eq_get obs 0 (by omega)]
    rw [h52, h53, hfilter]
    simp only [List.map_nil]
    rw [getStrength_nil_preflop ev pct board hb]
    have h0 : round2 0 = 0 := by norm_num [round2]
    rw [h0]

/-- Witness for `encode_state_malformed`: the empty observation raises,
and a length-54 observation with an all-zero card mask encodes silently.
-/
theorem encode_state_malformed_witness :
    encodeState (fun _ _ => .error "") (fun q => q) [] [] = .error "IndexError" ∧
    encodeState (fun _ _ => .error "") (fun q => q) (List.replicate 54 0) [] =
      .ok (0, round1 (100 -
        ((List.replicate 54 (0 : ℚ)).getD 52 0 + (List.replicate 54 (0 : ℚ)).getD 53 0))) :=
  ⟨(encode_state_malformed (fun _ _ => .error "") (fun q => q) [] []).1 (by norm_num),
    (encode_state_malformed (fun _ _ => .error "") (fun q => q)
        (List.replicate 54 0) []).2 (by simp)
      (fun i _ => by
        rw [List.getD_eq_getElem?_getD, List.getElem?_replicate]
        split <;> norm_num)
      (by simp)⟩

/-- Counterexample to C4 as stated: the all-zero observation of length 54
has no hole cards in its card mask, yet `encode_state` succeeds silently,
returning strength 0 and pot 100 instead of raising. -/
theorem encode_state_no_hole_silent :
    encodeState (fun _ _ => .error "") (fun q => q) (List.replicate 54 0) [] =
      .ok (0, 100) := by
  have h := (encode_state_malformed (fun _ _ => .error "") (fun q => q)
      (List.replicate 54 0) []).2 (by simp)
      (fun i _ => by
        rw [List.getD_eq_getElem?_getD, List.getElem?_replicate]
        split <;> norm_num) (by simp)
  rw [h]
  norm_num [round1]

lemma convertCard_big (idx : ℤ) (h : 52 < idx) : convertCard idx = none := by
  rw [convertCard_eq]
  have h13 : 13 ≤ (idx - 1) / 4 := by omega
  split_ifs with h0 hA hB
  · omega
  · exact absurd hA.2 (by omega)
  · exact absurd hB.2 (by omega)
  · rfl

/-- C5 (amended): no `InvalidCardError` exists — for every card id above
52, `convert_card` catches the internal `IndexError` and returns `None`
(silent degradation, logged); for every id in [-51, -1] the id is
silently COERCED to a real card by Python negative list indexing; and the
caller `get_strength` converts the downstream evaluation failure of a
`None` card into strength 0.0. -/
theorem convert_card_out_of_range :
    (∀ idx : ℤ, 52 < idx → convertCard idx = none) ∧
    (∀ idx : ℤ, -51 ≤ idx → idx < 0 → (convertCard idx).isSome = true) ∧
    (∀ (ev : List (Option PCard) → List (Option PCard) → Except String ℚ)
      (pct : ℚ → ℚ) (idx : ℤ), 52 < idx → getStrength ev pct [1, idx] [] = 0) := by
  refine ⟨convertCard_big, ?_, ?_⟩
  · intro idx hlo hhi
    rw [convertCard_eq]
    have hr : -13 ≤ (idx - 1) / 4 ∧ (idx - 1) / 4 < 0 := by omega
    split_ifs with h0 hA hB <;> first | rfl | omega
  · intro ev pct idx hbig
    unfold getStrength
    rw [show List.filter (fun i => decide (0 < i)) [1, idx] = [1, idx] from by
      have : (0 : ℤ) < idx := by omega
      simp [this]]
    simp only [List.map_cons, List.map_nil, List.length_map, List.filter_nil,
      List.length_nil, convertCard_big idx hbig]
    norm_num
    unfold estimatePreflop
    simp

/-- Witness for `convert_card_out_of_range`: id 53 yields `None`, id -1 is
coerced to a card, and a hand containing id 53 evaluates to strength 0. -/
theorem convert_card_out_of_range_witness :
    convertCard 53 = none ∧ (convertCard (-1)).isSome = true ∧
    getStrength (fun _ _ => .error "") (fun q => q) [1, 53] [] = 0 :=
  ⟨convert_card_out_of_range.1 53 (by norm_num),
    convert_card_out_of_range.2.1 (-1) (by norm_num) (by norm_num),
    convert_card_out_of_range.2.2 _ _ 53 (by norm_num)⟩

/-- Counterexample to C5 as stated: the out-of-range card id -1 is not
rejected by `convert_card` at all — Python negative indexing silently
coerces it to the ace of hearts. -/
theorem convert_card_negative_coerced :
    convertCard (-1) = some ⟨12, 2⟩ := by decide

lemma derefTable_some (st : RegretState) (k : ℚ × ℚ) (a : ℕ) (h : st.table k = some a) :
    derefTable st k = st.heap.getD a (fun _ => 0) := by
  unfold derefTable
  rw [h]

lemma derefTable_none (st : RegretState) (k : ℚ × ℚ) (h : st.table k = none) :
    derefTable st k = fun _ => 0 := by
  unfold derefTable
  rw [h]

lemma table_stepDecision_none (reward : ℚ) (st : RegretState) (d : Decision)
    (h : st.table (stateKey d) = none) (k : ℚ × ℚ) :
    (stepDecision reward st d).table k =
      if k = stateKey d then some st.heap.length else st.table k := by
  simp only [stepDecision, getOrAlloc, h]

lemma heap_stepDecision_none (reward : ℚ) (st : RegretState) (d : Decision)
    (h : st.table (stateKey d) = none) :
    (stepDecision reward st d).heap =
      (st.heap ++ [fun _ => 0]).set st.heap.length
        (fun x => ((st.heap ++ [fun _ => 0]).getD st.heap.length (fun _ => 0)) x
          + immediateRegret reward d x) := by
  simp only [stepDecision, getOrAlloc, h]

lemma table_stepDecision_some (reward : ℚ) (st : RegretState) (d : Decision) (a : ℕ)
    (h : st.table (stateKey d) = some a) :
    (stepDecision reward st d).table = st.table := by
  simp only [stepDecision, getOrAlloc, h]

lemma heap_stepDecision_some (reward : ℚ) (st : RegretState) (d : Decision) (a : ℕ)
    (h : st.table (stateKey d) = some a) :
    (stepDecision reward st d).heap =
      st.heap.set a
        (fun x => (st.heap.getD a (fun _ => 0)) x + immediateRegret reward d x) := by
  simp only [stepDecision, getOrAlloc, h]

lemma derefTable_stepDecision (reward : ℚ) (st : RegretState) (d : Decision)
    (hwf : WFState st) (k : ℚ × ℚ) :
    derefTable (stepDecision reward st d) k =
      if k = stateKey d then fun x => derefTable st k x + immediateRegret reward d x
      else derefTable st k := by
  rcases hmatch : st.table (stateKey d) with _ | a
  · by_cases hk : k = stateKey d
    · rw [if_pos hk,
        derefTable_some _ k st.heap.length
          (by rw [table_stepDecision_none reward st d hmatch k]; simp [hk]),
        heap_stepDecision_none reward st d hmatch,
        List.getD_eq_getElem?_getD, List.getElem?_set_self (by simp),
        Option.getD_some, derefTable_none st k (by rw [hk]; exact hmatch)]
      funext x
      rw [List.getD_eq_getElem?_getD, List.getElem?_append_right (le_refl _)]
      simp
    · rw [if_neg hk]
      rcases hb : st.table k with _ | b
      · rw [derefTable_none st k hb,
          derefTable_none _ k
            (by rw [table_stepDecision_none reward st d hmatch k]; simp [hk, hb])]
      · have hblt : b < st.heap.length := hwf.1 k b hb
        rw [derefTable_some st k b hb,
          derefTable_some _ k b
            (by rw [table_stepDecision_none reward st d hmatch k]; simp [hk, hb]),
          heap_stepDecision_none reward st d hmatch,
          List.getD_eq_getElem?_getD,
          List.getElem?_set_ne (by omega : st.heap.length ≠ b),
          List.getElem?_append_left hblt, ← List.getD_eq_getElem?_getD]
  · have ha : a < st.heap.length := hwf.1 _ _ hmatch
    by_cases hk : k = stateKey d
    · rw [if_pos hk,
        derefTable_some _ k a
          (by rw [table_stepDecision_some reward st d a hmatch, hk]; exact hmatch),
        heap_stepDecision_some reward st d a hmatch,
        List.getD_eq_getElem?_getD, List.getElem?_set_self ha, Option.getD_some,
        derefTable_some st k a (by rw [hk]; exact hmatch)]
    · rw [if_neg hk]
      rcases hb : st.table k with _ | b
      · rw [derefTable_none st k hb,
          derefTable_none _ k
            (by rw [table_stepDecision_some reward st d a hmatch]; exact hb)]
      · have hab : a ≠ b := by
          intro h
          apply hk
          exact hwf.2 k (stateKey d) a (by rw [h]; exact hb) hmatch
        rw [derefTable_some st k b hb,
          derefTable_some _ k b
            (by rw [table_stepDecision_some reward st d a hmatch]; exact hb),
          heap_stepDecision_some reward st d a hmatch,
          List.getD_eq_getElem?_getD, List.getElem?_set_ne hab, ← List.getD_eq_getElem?_getD]

lemma wfState_stepDecision (reward : ℚ) (st : RegretState) (d : Decision)
    (hwf : WFState st) : WFState (stepDecision reward st d) := by
  rcases hmatch : st.table (stateKey d) with _ | a
  · constructor
    · intro k b h
      rw [table_stepDecision_none reward st d hmatch k] at h
      rw [heap_stepDecision_none reward st d hmatch]
      simp only [List.length_set, List.length_append, List.length_singleton]
      by_cases hk : k = stateKey d
      · rw [if_pos hk] at h
        simp only [Option.some.injEq] at h
        omega
      · rw [if_neg hk] at h
        have := hwf.1 k b h
        omega
    · intro k k' b h h'
      rw [table_stepDecision_none reward st d hmatch k] at h
      rw [table_stepDecision_none reward st d hmatch k'] at h'
      by_cases hk : k = stateKey d <;> by_cases hk' : k' = stateKey d
      · rw [hk, hk']
      · exfalso
        rw [if_pos hk] at h
        rw [if_neg hk'] at h'
        simp only [Option.some.injEq] at h
        have := hwf.1 k' b h'
        omega
      · exfalso
        rw [if_neg hk] at h
        rw [if_pos hk'] at h'
        simp only [Option.some.injEq] at h'
        have := hwf.1 k b h
        omega
      · rw [if_neg hk] at h
        rw [if_neg hk'] at h'
        exact hwf.2 k k' b h h'
  · constructor
    · intro k b h
      rw [table_stepDecision_some reward st d a hmatch] at h
      rw [heap_stepDecision_some reward st d a hmatch]
      simp only [List.length_set]
      exact hwf.1 k b h
    · intro k k' b h h'
      rw [table_stepDecision_some reward st d a hmatch] at h
      rw [table_stepDecision_some reward st d a hmatch] at h'
      exact hwf.2 k k' b h h'

lemma wfState_initial : WFState initialRegretState := by
  constructor
  · intro k a h
    simp [initialRegretState] at h
  · intro k k' a h h'
    simp [initialRegretState] at h

lemma regretDelta_aux (r : ℚ) (h : List Decision) (k : ℚ × ℚ) (init : Fin 5 → ℚ) :
    h.foldl
      (fun acc d => if stateKey d = k then fun a => acc a + immediateRegret r d a else acc)
      init
    = fun a => init a + regretDelta r h k a := by
  induction h generalizing init with
  | nil =>
    funext a
    simp [regretDelta]
  | cons d t ih =>
    have hdelta : regretDelta r (d :: t) k =
        fun a => (if stateKey d = k then immediateRegret r d a else 0)
          + regretDelta r t k a := by
      rw [show regretDelta r (d :: t) k
          = List.foldl
              (fun acc d =>
                if stateKey d = k then fun a => acc a + immediateRegret r d a else acc)
              (if stateKey d = k then
                fun a => (fun _ => (0 : ℚ)) a + immediateRegret r d a
              else fun _ => 0) t from rfl, ih]
      funext a
      by_cases hd : stateKey d = k <;> simp [hd]
    simp only [List.foldl_cons]
    rw [ih, hdelta]
    funext a
    by_cases hd : stateKey d = k <;> simp [hd] <;> ring

/-- C1: for every recorded decision and terminal reward, the update
computes the counterfactual value `reward * (rp_opp / (rp_self + 1e-8))`,
builds the immediate-regret vector with
`cf_value * (1 - strategy[action])` at the chosen action and
`-cf_value * strategy[a]` elsewhere, and adds it to the cumulative regret
entry for the decision's state key. -/
theorem regret_update_formula (reward : ℚ) (d : Decision) (st : RegretState)
    (hwf : WFState st) :
    cfValue reward d = reward * (d.rpOpp / (d.rpSelf + 1 / 100000000)) ∧
    immediateRegret reward d d.action = cfValue reward d * (1 - d.strategy d.action) ∧
    (∀ a, a ≠ d.action → immediateRegret reward d a = -(cfValue reward d) * d.strategy a) ∧
    derefTable (stepDecision reward st d) (stateKey d) =
      fun a => derefTable st (stateKey d) a + immediateRegret reward d a := by
  refine ⟨rfl, by simp [immediateRegret], fun a ha => by simp [immediateRegret, ha], ?_⟩
  rw [derefTable_stepDecision reward st d hwf (stateKey d), if_pos rfl]

/-- Witness for `regret_update_formula` at a concrete decision and the
fresh trainer state. -/
theorem regret_update_formula_witness :
    cfValue 1 ⟨(1/2, 3), fun a => if a = 0 then 1 else 0, 0, 1, 1⟩ =
      1 * ((1 : ℚ) / (1 + 1 / 100000000)) ∧
    immediateRegret 1 ⟨(1/2, 3), fun a => if a = 0 then 1 else 0, 0, 1, 1⟩ 0 =
      cfValue 1 ⟨(1/2, 3), fun a => if a = 0 then 1 else 0, 0, 1, 1⟩ *
        (1 - (if (0 : Fin 5) = 0 then (1 : ℚ) else 0)) ∧
    (∀ a, a ≠ (0 : Fin 5) →
      immediateRegret 1 ⟨(1/2, 3), fun a => if a = 0 then 1 else 0, 0, 1, 1⟩ a =
        -(cfValue 1 ⟨(1/2, 3), fun a => if a = 0 then 1 else 0, 0, 1, 1⟩) *
          (if a = 0 then 1 else 0)) ∧
    derefTable
        (stepDecision 1 initialRegretState
          ⟨(1/2, 3), fun a => if a = 0 then 1 else 0, 0, 1, 1⟩)
        (stateKey ⟨(1/2, 3), fun a => if a = 0 then 1 else 0, 0, 1, 1⟩) =
      fun a =>
        derefTable initialRegretState
            (stateKey ⟨(1/2, 3), fun a => if a = 0 then 1 else 0, 0, 1, 1⟩) a +
          immediateRegret 1 ⟨(1/2, 3), fun a => if a = 0 then 1 else 0, 0, 1, 1⟩ a :=
  regret_update_formula 1 ⟨(1/2, 3), fun a => if a = 0 then 1 else 0, 0, 1, 1⟩
    initialRegretState wfState_initial

/-- C10: one `_update_regrets` call changes the cumulative regret entry of
every state key by exactly `regretDelta`, a quantity computed from the
trajectory and the rewards alone — independent of the prior table
contents and of any hidden counter — so re-running it on the same
trajectory from the same (or any) initial table produces the same delta. -/
theorem regret_update_delta_independent (finalRewards : List (String × ℚ))
    (history : List Decision) (st : RegretState) (hwf : WFState st) (k : ℚ × ℚ) :
    derefTable (updateRegrets finalRewards history st) k =
      fun a => derefTable st k a
        + regretDelta ((finalRewards.lookup "player_0").getD 0) history k a := by
  induction history generalizing st with
  | nil =>
    funext a
    simp [updateRegrets, regretDelta]
  | cons d t ih =>
    have hstep : updateRegrets finalRewards (d :: t) st
        = updateRegrets finalRewards t
            (stepDecision ((finalRewards.lookup "player_0").getD 0) st d) := rfl
    rw [hstep,
      ih (stepDecision ((finalRewards.lookup "player_0").getD 0) st d)
        (wfState_stepDecision _ st d hwf),
      derefTable_stepDecision _ st d hwf k]
    have hdelta : regretDelta ((finalRewards.lookup "player_0").getD 0) (d :: t) k =
        fun a =>
          (if stateKey d = k then
            immediateRegret ((finalRewards.lookup "player_0").getD 0) d a
          else 0)
          + regretDelta ((finalRewards.lookup "player_0").getD 0) t k a := by
      rw [show regretDelta ((finalRewards.lookup "player_0").getD 0) (d :: t) k
          = List.foldl
              (fun acc e =>
                if stateKey e = k then
                  fun a => acc a
                    + immediateRegret ((finalRewards.lookup "player_0").getD 0) e a
                else acc)
              (if stateKey d = k then
                fun a => (fun _ => (0 : ℚ)) a
                  + immediateRegret ((finalRewards.lookup "player_0").getD 0) d a
              else fun _ => 0) t from rfl,
        regretDelta_aux]
      funext a
      by_cases hd : stateKey d = k <;> simp [hd]
    rw [hdelta]
    funext a
    by_cases hd : k = stateKey d
    · simp [hd]
      ring
    · have hd' : ¬ stateKey d = k := fun h => hd h.symm
      simp [hd, hd']

/-- Witness for `regret_update_delta_independent`: one-decision trajectory
from the fresh state. -/
theorem regret_update_delta_independent_witness :
    derefTable
        (updateRegrets [("player_0", 2)]
          [⟨(1/2, 3), fun a => if a = 0 then 1 else 0, 0, 1, 1⟩] initialRegretState)
        (1/2, 3) =
      fun a =>
        derefTable initialRegretState (1/2, 3) a +
          regretDelta (([("player_0", (2 : ℚ))].lookup "player_0").getD 0)
            [⟨(1/2, 3), fun a => if a = 0 then 1 else 0, 0, 1, 1⟩] (1/2, 3) a :=
  regret_update_delta_independent [("player_0", 2)]
    [⟨(1/2, 3), fun a => if a = 0 then 1 else 0, 0, 1, 1⟩]
    initialRegretState wfState_initial (1/2, 3)

/-- C8: epsilon is decayed exactly once per completed training iteration
by `epsilon = max(min_epsilon, epsilon * epsilon_decay)`, so after `n`
iterations starting from 0.15 with decay 0.995 and floor 0.01 it equals
`max(0.01, 0.15 * 0.995^n)` exactly, and the iteration counter equals
`n`. -/
theorem epsilon_decay_formula (n : ℕ) :
    (trainAfter n).epsilon = max (1/100) ((3/20) * (199/200)^n) ∧
    (trainAfter n).iterations = n := by
  induction n with
  | zero =>
    constructor
    · rw [show trainAfter 0 = initialTrainerState from rfl]
      norm_num [initialTrainerState]
    · rfl
  | succ n ih =>
    have hstep : trainAfter (n + 1) = trainStep (trainAfter n) :=
      Function.iterate_succ_apply' trainStep n initialTrainerState
    constructor
    · rw [hstep, show (trainStep (trainAfter n)).epsilon
          = max (1/100) ((trainAfter n).epsilon * (199/200)) from rfl, ih.1]
      rcases le_total ((3/20) * (199/200)^n : ℚ) (1/100) with h | h
      · have hq : (0:ℚ) ≤ (199/200)^n := pow_nonneg (by norm_num) n
        have hle : (3/20 : ℚ) * (199/200)^(n+1) ≤ 3/20 * (199/200)^n := by
          rw [pow_succ]
          nlinarith
        rw [max_eq_left h, max_eq_left (by norm_num), max_eq_left (le_trans hle h)]
      · rw [max_eq_right h, pow_succ]
        ring_nf
    · rw [hstep, show (trainStep (trainAfter n)).iterations
          = (trainAfter n).iterations + 1 from rfl, ih.2]

/-- C9: the replay buffer (`deque(maxlen=1000000)`) never exceeds
capacity 10^6, and appending to a buffer at exactly capacity evicts
precisely the oldest entry, leaving the size at capacity. -/
theorem replay_buffer_fifo (xs : List ((ℚ × ℚ) × ℕ)) (x : (ℚ × ℚ) × ℕ)
    (h : xs.length ≤ 1000000) :
    (dequePush 1000000 xs x).length ≤ 1000000 ∧
    (xs.length = 1000000 →
      dequePush 1000000 xs x = xs.tail ++ [x] ∧
      (dequePush 1000000 xs x).length = 1000000) := by
  unfold dequePush
  by_cases hlt : xs.length < 1000000
  · rw [if_pos hlt]
    exact ⟨by simp; omega, fun heq => absurd heq (by omega)⟩
  · rw [if_neg hlt]
    have hexact : xs.length = 1000000 := by omega
    have hdrop : xs.length + 1 - 1000000 = 1 := by omega
    refine ⟨?_, fun _ => ⟨?_, ?_⟩⟩
    · simp only [List.length_append, List.length_drop, List.length_singleton]
      omega
    · rw [hdrop, List.drop_one]
    · simp only [List.length_append, List.length_drop, List.length_singleton]
      omega

/-- Witness for `replay_buffer_fifo` at a buffer of exactly 10^6 dummy
entries. -/
theorem replay_buffer_fifo_witness :
    (dequePush 1000000 (List.replicate 1000000 (((0 : ℚ), (0 : ℚ)), (0 : ℕ)))
        (((1 : ℚ), (1 : ℚ)), (1 : ℕ))).length ≤ 1000000 ∧
    ((List.replicate 1000000 (((0 : ℚ), (0 : ℚ)), (0 : ℕ))).length = 1000000 →
      dequePush 1000000 (List.replicate 1000000 (((0 : ℚ), (0 : ℚ)), (0 : ℕ)))
          (((1 : ℚ), (1 : ℚ)), (1 : ℕ)) =
        (List.replicate 1000000 (((0 : ℚ), (0 : ℚ)), (0 : ℕ))).tail ++
          [(((1 : ℚ), (1 : ℚ)), (1 : ℕ))] ∧
      (dequePush 1000000 (List.replicate 1000000 (((0 : ℚ), (0 : ℚ)), (0 : ℕ)))
          (((1 : ℚ), (1 : ℚ)), (1 : ℕ))).length = 1000000) :=
  replay_buffer_fifo (List.replicate 1000000 (((0 : ℚ), (0 : ℚ)), (0 : ℕ)))
    (((1 : ℚ), (1 : ℚ)), (1 : ℕ))
    (by rw [List.length_replicate])

lemma buffer_stepDecision_none (reward : ℚ) (st : RegretState) (d : Decision)
    (h : st.table (stateKey d) = none) :
    (stepDecision reward st d).buffer =
      dequePush 1000000 st.buffer (d.state, st.heap.length) := by
  simp only [stepDecision, getOrAlloc, h]

lemma buffer_stepDecision_some (reward : ℚ) (st : RegretState) (d : Decision) (a : ℕ)
    (h : st.table (stateKey d) = some a) :
    (stepDecision reward st d).buffer = dequePush 1000000 st.buffer (d.state, a) := by
  simp only [stepDecision, getOrAlloc, h]

lemma aliasDecision_imm0 :
    immediateRegret 1 aliasDecision 0 = 50000000/100000001 := by
  norm_num [immediateRegret, aliasDecision, cfValue]

lemma aliasDecision_step1_table :
    (stepDecision 1 initialRegretState aliasDecision).table (stateKey aliasDecision)
      = some 0 := by
  rw [table_stepDecision_none 1 initialRegretState aliasDecision rfl (stateKey aliasDecision)]
  simp [initialRegretState]

lemma aliasDecision_step1_heap :
    (stepDecision 1 initialRegretState aliasDecision).heap
      = [immediateRegret 1 aliasDecision] := by
  rw [heap_stepDecision_none 1 initialRegretState aliasDecision rfl]
  simp [initialRegretState]

lemma aliasDecision_step1_buffer :
    (stepDecision 1 initialRegretState aliasDecision).buffer
      = [(aliasDecision.state, 0)] := by
  rw [buffer_stepDecision_none 1 initialRegretState aliasDecision rfl]
  norm_num [initialRegretState, dequePush]

lemma aliasDecision_step2_heap :
    (stepDecision 1 (stepDecision 1 initialRegretState aliasDecision) aliasDecision).heap
      = [fun x => immediateRegret 1 aliasDecision x + immediateRegret 1 aliasDecision x] := by
  rw [heap_stepDecision_some 1 _ aliasDecision 0 aliasDecision_step1_table,
    aliasDecision_step1_heap]
  simp

lemma aliasDecision_step2_buffer :
    (stepDecision 1 (stepDecision 1 initialRegretState aliasDecision) aliasDecision).buffer
      = [(aliasDecision.state, 0), (aliasDecision.state, 0)] := by
  rw [buffer_stepDecision_some 1 _ aliasDecision 0 aliasDecision_step1_table,
    aliasDecision_step1_buffer]
  norm_num [dequePush]

lemma aliasDecision_run :
    updateRegrets [("player_0", 1)] [aliasDecision, aliasDecision] initialRegretState
      = stepDecision 1 (stepDecision 1 initialRegretState aliasDecision) aliasDecision := by
  show List.foldl
      (stepDecision (([("player_0", (1 : ℚ))].lookup "player_0").getD 0))
      initialRegretState [aliasDecision, aliasDecision]
    = stepDecision 1 (stepDecision 1 initialRegretState aliasDecision) aliasDecision
  rw [show ([("player_0", (1 : ℚ))].lookup "player_0").getD 0 = 1 by
    simp [List.lookup]]
  rfl

/-- C7 is violated by the code: `advantage_memory.append` stores a
REFERENCE to the numpy array held in `cumulative_regrets[state_key]`, and
a later `+=` on the same state key mutates that array in place. On the
two-decision trajectory `[aliasDecision, aliasDecision]` (same state key
twice) with training-player reward 1, run from the fresh trainer state:
the cumulative regret at the key as of the FIRST push is
`5*10^7/(10^8+1)` at action 0, but after the full update the first buffer
entry reads `10^8/(10^8+1)` there — the earlier entry was altered by the
later regret update on the same key, and the two values differ. -/
theorem buffer_entry_aliased :
    derefTable (stepDecision 1 initialRegretState aliasDecision)
        (stateKey aliasDecision) 0 = 50000000/100000001 ∧
    (bufferValue
        (updateRegrets [("player_0", 1)] [aliasDecision, aliasDecision]
          initialRegretState) 0).2 0 = 100000000/100000001 ∧
    (50000000 : ℚ)/100000001 ≠ 100000000/100000001 := by
  refine ⟨?_, ?_, by norm_num⟩
  · rw [derefTable_some _ (stateKey aliasDecision) 0 aliasDecision_step1_table,
      aliasDecision_step1_heap]
    simp [aliasDecision_imm0]
  · rw [aliasDecision_run]
    simp only [bufferValue, aliasDecision_step2_buffer, aliasDecision_step2_heap,
      List.getD_cons_zero]
    rw [aliasDecision_imm0]
    norm_num

end DeepCFRSpec
